import Mathlib

/-!
Verification development for the "Shading Rig" Blender add-on
(`shader-rig/__init__.py`, `shader-rig/addremove_helpers.py`).

The repository ships only the add-on entry module and the add/remove
operator module; the helper modules it imports (`hansens_float_packer`,
`math_helpers`, `json_helpers`, ...) are not part of the visible sources.
Definitions embedding those missing modules are marked
`Modelled from the spec:` and follow the specification's wording
(mixed-radix channel packing, quantization, inverse-distance pose
interpolation).  Everything else is translated directly from the Python
sources: the depsgraph update handler with its change-detection skip
keyed by the light object's name, and the correlation add/remove
operators.

Numeric conventions: Blender floats are embedded as `ℚ` (all the
arithmetic the claims exercise is exact), angles are measured in degrees
with a full turn of `360`, and the handler's skip test
`(v_prev - v_curr).length < 1e-5` is embedded by comparing the squared
norm against `(1e-5)^2`, which is equivalent and keeps the model
rational.
-/

/-- Triple of rationals embedding `mathutils.Vector` / `mathutils.Euler`
(3-component float vectors in the source). -/
structure Vec3 where
  x : ℚ
  y : ℚ
  z : ℚ
deriving DecidableEq

instance : Zero Vec3 := ⟨⟨0, 0, 0⟩⟩

instance : Add Vec3 := ⟨fun a b => ⟨a.x + b.x, a.y + b.y, a.z + b.z⟩⟩

instance : Sub Vec3 := ⟨fun a b => ⟨a.x - b.x, a.y - b.y, a.z - b.z⟩⟩

instance : SMul ℚ Vec3 := ⟨fun q v => ⟨q * v.x, q * v.y, q * v.z⟩⟩

/-- Modelled from the spec: reduce an angle (degrees) to its canonical
representative in `[0, 360)`; the building block for the per-axis
shortest-arc distance of §4.3 step 1. -/
def wrapAngle (a : ℚ) : ℚ :=
  a - 360 * ((⌊a / 360⌋ : ℤ) : ℚ)

/-- Modelled from the spec: per-axis shortest-arc angular distance
(§4.3 step 1), the smaller of the two arcs between the two angles. -/
def axisDelta (a b : ℚ) : ℚ :=
  let r := wrapAngle (a - b)
  min r (360 - r)

/-- Modelled from the spec: squared angular distance between two
orientations — the sum of the squared per-axis shortest-arc deltas
(the square of the Euclidean norm over the three axis deltas, §4.3
step 1). -/
def sqDist (a b : Vec3) : ℚ :=
  (axisDelta a.x b.x) ^ 2 + (axisDelta a.y b.y) ^ 2 + (axisDelta a.z b.z) ^ 2

/-- One stored correlation sample (`SR_CorrelationItem` in
`__init__.py`): a light orientation together with the empty object's
pose recorded for it. -/
structure CorrelationItem where
  name : String
  light_rotation : Vec3
  empty_position : Vec3
  empty_rotation : Vec3
  empty_scale : Vec3
deriving DecidableEq

/-- Weighted sum of vectors used for the linear blending steps of the
interpolator (positions and scales, §4.3 step 4). -/
def weightedSum (ws : List (ℚ × Vec3)) : Vec3 :=
  ws.foldr (fun wv acc => wv.1 • wv.2 + acc) 0

/-- Modelled from the spec: the pose interpolator
`math_helpers.calculateWeightedEmptyPosition` (module absent from the
visible sources), following §4.3: per-sample squared shortest-arc
distance, inverse-distance weight `1 / (distance ^ 2 + eps)` (the
falloff exponent and `eps` are tunable configuration per §9, embedded
here as `p = 2` applied to the Euclidean norm, which keeps the model
rational), normalization to total weight 1, linear blending of position
and scale, and rotation blending delegated to the explicit `rotBlend`
parameter because §9 leaves the rotation-averaging scheme open.
Returns `(position, scale, rotation)`, the tuple order of the call site
in `update_shading_rig_handler`. -/
def estimate (eps : ℚ) (rotBlend : List (ℚ × Vec3) → Vec3)
    (samples : List CorrelationItem) (q : Vec3) : Vec3 × Vec3 × Vec3 :=
  let ws := samples.map fun s => 1 / (sqDist s.light_rotation q + eps)
  let total := ws.sum
  let nws := ws.map fun w => w / total
  (weightedSum (nws.zip (samples.map fun s => s.empty_position)),
   weightedSum (nws.zip (samples.map fun s => s.empty_scale)),
   rotBlend (nws.zip (samples.map fun s => s.empty_rotation)))

/-- A concrete rotation-blend function (normalized-weight linear
combination) used to instantiate the `rotBlend` parameter of
`estimate` in closed statements; it satisfies the unit-weight identity
required of any conforming blend. -/
def rotBlendWeightedSum : List (ℚ × Vec3) → Vec3 :=
  weightedSum

/-- The light object as the handler sees it: its full name (the key of
the module-level `_previous_light_rotations` dictionary) and its
`rotation_euler`.  `evaluated_get(depsgraph)` is embedded as reading
this rotation directly (the handler skips the rig when the depsgraph
lookup fails; the model treats the lookup as always succeeding). -/
structure Light where
  name_full : String
  rotation_euler : Vec3
deriving DecidableEq

/-- Transform state of the empty object (`location`, `rotation_euler`,
`scale`) — the fields the handler writes. -/
structure ObjState where
  location : Vec3
  rotation_euler : Vec3
  scale : Vec3
deriving DecidableEq

/-- One rig item (`SR_RigItem`), restricted to the fields that the
update handler's pose pass and the correlation add/remove operators
touch.  The rename-sync fields (`last_empty_name`, `material`) are
omitted: the rename block of `update_shading_rig_handler` only renames
shader nodes and never reads or writes the pose, the previous-rotation
map, or the correlation list.  `correlations_index` is an
`IntProperty`; every write to it in the sources is non-negative, so it
is embedded as `ℕ`. -/
structure RigItem where
  light_object : Option Light
  empty_object : Option ObjState
  correlations : List CorrelationItem
  correlations_index : ℕ
deriving DecidableEq

/-- The module-level `_previous_light_rotations` dictionary: light name
to last rotation at which that light's rig pose was recomputed. -/
def PrevMap : Type := List (String × Vec3)

/-- Dictionary lookup, `_previous_light_rotations.get(key)`.  Insertion
is cons at the head, so the most recent binding for a key wins, matching
`dict` assignment semantics. -/
def lookupRot (k : String) : List (String × Vec3) → Option Vec3
  | [] => none
  | p :: ps => if p.1 = k then some p.2 else lookupRot k ps

/-- The handler's skip threshold compared against the squared length of
the rotation delta: `(1e-5)^2`, equivalent to the source's
`(v_prev - v_curr).length < 1e-5`. -/
def skipEpsSq : ℚ := (1 / 100000) ^ 2

/-- Squared Euclidean length of a `Vec3`, standing in for
`Vector.length` (compared against `skipEpsSq` instead of `1e-5`). -/
def sqNorm (v : Vec3) : ℚ :=
  v.x ^ 2 + v.y ^ 2 + v.z ^ 2

/-- One iteration of the `for rig_item in scene.shading_rig_list` loop
of `update_shading_rig_handler` (the pose-interpolation pass, lines
540-611 of `__init__.py`): skip when no empty object, no light object
or no correlations; otherwise skip when the previous-rotation map holds
an entry for the light's name closer than the epsilon, and else
recompute the empty's pose from the correlations at the current light
rotation and store the rotation in the map.  The interpolation itself
(`math_helpers.calculateWeightedEmptyPosition`) is the spec-modelled
`estimate`. -/
def handlerStep (eps : ℚ) (rotBlend : List (ℚ × Vec3) → Vec3)
    (m : List (String × Vec3)) (rig : RigItem) :
    List (String × Vec3) × RigItem :=
  match rig.empty_object, rig.light_object with
  | none, _ => (m, rig)
  | some _, none => (m, rig)
  | some _, some light =>
    if rig.correlations.length = 0 then (m, rig)
    else
      let cur := light.rotation_euler
      let key := light.name_full
      let recompute : List (String × Vec3) × RigItem :=
        let est := estimate eps rotBlend rig.correlations cur
        ((key, cur) :: m,
         { rig with empty_object := some ⟨est.1, est.2.2, est.2.1⟩ })
      match lookupRot key m with
      | some p => if sqNorm (p - cur) < skipEpsSq then (m, rig) else recompute
      | none => recompute

/-- The whole handler pass: fold `handlerStep` over the rig list,
threading the previous-rotation map, returning the final map and the
updated rigs. -/
def runHandler (eps : ℚ) (rotBlend : List (ℚ × Vec3) → Vec3) :
    List (String × Vec3) → List RigItem →
    List (String × Vec3) × List RigItem
  | m, [] => (m, [])
  | m, r :: rs =>
    let s := handlerStep eps rotBlend m r
    let rest := runHandler eps rotBlend s.1 rs
    (rest.1, s.2 :: rest.2)

/-- Reference version of one handler iteration with the
change-detection skip removed: always recompute the pose whenever the
rig has an empty, a light and at least one correlation. -/
def stepNoSkip (eps : ℚ) (rotBlend : List (ℚ × Vec3) → Vec3)
    (rig : RigItem) : RigItem :=
  match rig.empty_object, rig.light_object with
  | none, _ => rig
  | some _, none => rig
  | some _, some light =>
    if rig.correlations.length = 0 then rig
    else
      let est := estimate eps rotBlend rig.correlations light.rotation_euler
      { rig with empty_object := some ⟨est.1, est.2.2, est.2.1⟩ }

/-- The handler pass without the change-detection skip. -/
def runHandlerNoSkip (eps : ℚ) (rotBlend : List (ℚ × Vec3) → Vec3)
    (rigs : List RigItem) : List RigItem :=
  rigs.map (stepNoSkip eps rotBlend)

/-- The light-name key by which a rig participates in the
previous-rotation map. -/
def lightKey (r : RigItem) : Option String :=
  r.light_object.map fun l => l.name_full

/-- Blender operator outcome (`{"FINISHED"}` / `{"CANCELLED"}`). -/
inductive OpResult where
  | finished
  | cancelled
deriving DecidableEq

/-- Zero-padded three-digit rendering of a counter, embedding Python's
`f"{n:03d}"`. -/
def pad3 (n : ℕ) : String :=
  if n < 10 then "00" ++ toString n
  else if n < 100 then "0" ++ toString n
  else toString n

/-- Name given to a freshly added correlation,
`f"Correlation_{scene.shading_rig_chararacter_name}_{len(...):03d}"`
where the length is taken after the append. -/
def correlationName (charName : String) (n : ℕ) : String :=
  "Correlation_" ++ charName ++ "_" ++ pad3 n

/-- `SR_OT_Correlation_Add.execute` (`addremove_helpers.py` lines
160-193): cancel when the rig lacks a light or empty object; otherwise
append one sample recording the light's rotation and the empty's
location/scale/rotation, and select it by setting `correlations_index`
to the new last index. -/
def correlationAddExecute (charName : String) (rig : RigItem) :
    RigItem × OpResult :=
  match rig.light_object, rig.empty_object with
  | some l, some e =>
    let newCorr : CorrelationItem :=
      { name := correlationName charName (rig.correlations.length + 1)
        light_rotation := l.rotation_euler
        empty_position := e.location
        empty_rotation := e.rotation_euler
        empty_scale := e.scale }
    ({ rig with
        correlations := rig.correlations ++ [newCorr]
        correlations_index := rig.correlations.length },
     OpResult.finished)
  | _, _ => (rig, OpResult.cancelled)

/-- `SR_OT_Correlation_Remove.execute` (`addremove_helpers.py` lines
218-238): cancel when the stored index is not below the list length;
otherwise remove the sample at the index and move the index to
`index - 1` when positive, else `0`. -/
def correlationRemoveExecute (rig : RigItem) : RigItem × OpResult :=
  let index := rig.correlations_index
  if rig.correlations.length ≤ index then (rig, OpResult.cancelled)
  else
    ({ rig with
        correlations := rig.correlations.eraseIdx index
        correlations_index := if 0 < index then index - 1 else 0 },
     OpResult.finished)

/-- Failure taxonomy of §7 (`hansens_float_packer` is absent from the
visible sources, so the error kinds are taken from the spec). -/
inductive PackError where
  | channelOverflow
  | invalidEnumValue
  | channelCountMismatch
deriving DecidableEq

/-- Modelled from the spec: mixed-radix positional encoding of one
transport channel (§4.2) — `composite = Σ code_i * Π (radix_j, j < i)`,
written recursively.  Lists of unequal length fall through to `0`; the
theorems only invoke it on aligned lists. -/
def packChannel : List ℕ → List ℕ → ℕ
  | r :: rs, c :: cs => c + r * packChannel rs cs
  | _, _ => 0

/-- Modelled from the spec: decoding one transport channel (§4.2) —
`code_i = floor(composite / Π (radix_j, j < i)) mod radix_i`, realized
by repeated modulo/division. -/
def unpackChannel : List ℕ → ℕ → List ℕ
  | [], _ => []
  | r :: rs, n => n % r :: unpackChannel rs (n / r)

/-- Modelled from the spec: `pack` over the full layout — one composite
integer per transport channel.  The composite is a non-negative integer
carried verbatim in the transport float (§4.2 "written as the transport
float's value directly"), so the channel values are embedded as `ℕ`. -/
def packAll (layout : List (List ℕ)) (codes : List (List ℕ)) : List ℕ :=
  List.zipWith packChannel layout codes

/-- Modelled from the spec: `unpack` over the full layout. -/
def unpackAll (layout : List (List ℕ)) (ns : List ℕ) : List (List ℕ) :=
  List.zipWith unpackChannel layout ns

/-- Validity of one channel's codes: each code is below its declared
radix. -/
def chValid (rs cs : List ℕ) : Prop :=
  List.Forall₂ (fun c r => c < r) cs rs

/-- Modelled from the spec: layout definition with the §4.2 design rule
— a layout whose channel radix product exceeds the exact-integer bound
of the transport type is rejected as `ChannelOverflow` when the layout
is defined (never at pack time; `packChannel` is total). -/
def defineLayout (channels : List (List ℕ)) (bound : ℕ) :
    Except PackError (List (List ℕ)) :=
  if ∀ ch ∈ channels, ch.prod ≤ bound then Except.ok channels
  else Except.error PackError.channelOverflow

/-- Modelled from the spec: the concrete radix layout of the three
driver channels created by `SR_OT_RigList_Add.execute` (the driver
packs elongation, sharpness, bulge, bend, hardness, mode, clamp and
rotation through `bpy.packing_algorithm` into a 3-element property).
The packer body is absent from the visible sources; the grouping
follows §8's scenario for the first channel (elongation at 8 levels,
mode with 5 enum values, clamp boolean), gives the remaining continuous
parameters 8-bit level budgets, and radix 100 to `rotation` (an
`IntProperty` ranged 0..99 in `__init__.py`). -/
def srLayout : List (List ℕ) :=
  [[8, 5, 2], [256, 256], [256, 256, 100]]

/-- Exact-integer ceiling of a 32-bit float transport channel, `2^24`
(§3, §4.2). -/
def transportBound : ℕ := 2 ^ 24

/-- Modelled from the spec: a continuous parameter descriptor (§4.1) —
declared range `[lo, hi]` and a bit budget giving `2^bits` levels. -/
structure ContDesc where
  lo : ℚ
  hi : ℚ
  bits : ℕ
deriving DecidableEq

/-- Clamp a value into `[lo, hi]` (out-of-range input is clamped rather
than rejected, §4.1). -/
def clampQ (lo hi v : ℚ) : ℚ :=
  max lo (min hi v)

/-- Modelled from the spec: the quantization step of a continuous
descriptor — the smallest difference distinguishable by the level
budget, `(hi - lo) / (2^bits - 1)`. -/
def stepQ (d : ContDesc) : ℚ :=
  (d.hi - d.lo) / (2 ^ d.bits - 1)

/-- Modelled from the spec: continuous quantization (§4.1) — clamp into
the declared range, then linearly map `[lo, hi]` to `[0, 2^bits - 1]`
rounding to nearest. -/
def quantizeCont (d : ContDesc) (v : ℚ) : ℤ :=
  round ((clampQ d.lo d.hi v - d.lo) / stepQ d)

/-- Modelled from the spec: continuous dequantization, the inverse
linear map. -/
def dequantizeCont (d : ContDesc) (c : ℤ) : ℚ :=
  d.lo + (c : ℚ) * stepQ d

/-- Modelled from the spec: enum quantization (§4.1) — identity on the
ordinal, `InvalidEnumValue` when the ordinal is outside the declared
cardinality. -/
def quantizeEnum (card ordinal : ℕ) : Except PackError ℕ :=
  if ordinal < card then Except.ok ordinal
  else Except.error PackError.invalidEnumValue

/-- Modelled from the spec: enum dequantization, the identity. -/
def dequantizeEnum (code : ℕ) : ℕ := code

/-- Modelled from the spec: boolean quantization, codes `{0, 1}`. -/
def quantizeBool (b : Bool) : ℕ :=
  if b then 1 else 0

/-- Modelled from the spec: boolean dequantization. -/
def dequantizeBool (c : ℕ) : Bool :=
  c != 0

@[ext]
theorem Vec3.ext3 {a b : Vec3} (hx : a.x = b.x) (hy : a.y = b.y) (hz : a.z = b.z) :
    a = b := by
  cases a; cases b; cases hx; cases hy; cases hz; rfl

@[simp] theorem Vec3.add_x (a b : Vec3) : (a + b).x = a.x + b.x := rfl

@[simp] theorem Vec3.add_y (a b : Vec3) : (a + b).y = a.y + b.y := rfl

@[simp] theorem Vec3.add_z (a b : Vec3) : (a + b).z = a.z + b.z := rfl

@[simp] theorem Vec3.sub_x (a b : Vec3) : (a - b).x = a.x - b.x := rfl

@[simp] theorem Vec3.sub_y (a b : Vec3) : (a - b).y = a.y - b.y := rfl

@[simp] theorem Vec3.sub_z (a b : Vec3) : (a - b).z = a.z - b.z := rfl

@[simp] theorem Vec3.smul_x (q : ℚ) (v : Vec3) : (q • v).x = q * v.x := rfl

@[simp] theorem Vec3.smul_y (q : ℚ) (v : Vec3) : (q • v).y = q * v.y := rfl

@[simp] theorem Vec3.smul_z (q : ℚ) (v : Vec3) : (q • v).z = q * v.z := rfl

@[simp] theorem Vec3.zero_x : (0 : Vec3).x = 0 := rfl

@[simp] theorem Vec3.zero_y : (0 : Vec3).y = 0 := rfl

@[simp] theorem Vec3.zero_z : (0 : Vec3).z = 0 := rfl

@[simp] theorem Vec3.one_smul (v : Vec3) : (1 : ℚ) • v = v := by
  ext <;> simp

@[simp] theorem Vec3.add_zero (v : Vec3) : v + 0 = v := by
  ext <;> simp

/-- Decoding a channel recovers every code packed into it, provided
each code is below its declared radix. -/
theorem unpackChannel_packChannel {rs cs : List ℕ} (h : chValid rs cs) :
    unpackChannel rs (packChannel rs cs) = cs := by
  induction h with
  | nil => rfl
  | cons hcr htail ih =>
    rename_i c r cs' rs'
    have hr : 0 < r := lt_of_le_of_lt (Nat.zero_le c) hcr
    simp only [packChannel, unpackChannel]
    rw [Nat.add_mul_mod_self_left, Nat.mod_eq_of_lt hcr,
      Nat.add_mul_div_left _ _ hr, Nat.div_eq_of_lt hcr, Nat.zero_add, ih]

/-- A channel composite is strictly below the product of the channel's
radixes. -/
theorem packChannel_lt_prod {rs cs : List ℕ} (h : chValid rs cs) :
    packChannel rs cs < rs.prod := by
  induction h with
  | nil => simp [packChannel]
  | cons hcr htail ih =>
    rename_i c r cs' rs'
    simp only [packChannel, List.prod_cons]
    have h1 : c + r * packChannel rs' cs' < r + r * packChannel rs' cs' :=
      Nat.add_lt_add_right hcr _
    have h2 : r + r * packChannel rs' cs' = r * (packChannel rs' cs' + 1) := by
      rw [Nat.mul_succ]; omega
    have h3 : r * (packChannel rs' cs' + 1) ≤ r * rs'.prod :=
      Nat.mul_le_mul_left r (Nat.succ_le_of_lt ih)
    omega

/-- C1: for every valid combination of parameter values (each quantized
code below its declared radix, every channel radix product within the
overflow bound), `unpack (pack values)` returns exactly the original
quantized codes — pack being the mixed-radix positional encoding
`Σ code_i * Π (radix_j, j < i)` per channel and unpack the matching
floor/modulo recovery. -/
theorem c1_codec_round_trip (layout codes : List (List ℕ))
    (hvalid : List.Forall₂ chValid layout codes)
    (hbound : ∀ ch ∈ layout, ch.prod ≤ transportBound) :
    unpackAll layout (packAll layout codes) = codes := by
  induction hvalid with
  | nil => rfl
  | cons hcr htail ih =>
    rename_i rs cs layout' codes'
    simp only [packAll, unpackAll, List.zipWith_cons_cons] at ih ⊢
    rw [unpackChannel_packChannel hcr]
    have : ∀ ch ∈ layout', ch.prod ≤ transportBound := fun ch hch =>
      hbound ch (List.mem_cons_of_mem _ hch)
    rw [ih this]

/-- Witness for C1 at the concrete shading-rig layout, packing the §8
scenario codes (elongation code 4, mode 2, clamp 1) plus codes for the
remaining channels. -/
theorem c1_codec_round_trip_witness :
    unpackAll srLayout (packAll srLayout [[4, 2, 1], [10, 20], [30, 40, 99]]) =
      [[4, 2, 1], [10, 20], [30, 40, 99]] :=
  c1_codec_round_trip srLayout [[4, 2, 1], [10, 20], [30, 40, 99]]
    (by
      refine List.Forall₂.cons ?_ (List.Forall₂.cons ?_
        (List.Forall₂.cons ?_ List.Forall₂.nil)) <;>
        · refine List.Forall₂.cons (by decide) ?_
          repeat first
            | exact List.Forall₂.nil
            | refine List.Forall₂.cons (by decide) ?_)
    (by decide)

/-- C4: a packing layout with a channel whose radix product exceeds the
transport type's exact-integer ceiling is rejected with
`ChannelOverflow` when the layout is defined (pack itself is total and
never truncates), and a layout within the bound is accepted. -/
theorem c4_overflow_rejection (channels : List (List ℕ)) (bound : ℕ) :
    ((∃ ch ∈ channels, bound < ch.prod) →
      defineLayout channels bound = Except.error PackError.channelOverflow) ∧
    ((∀ ch ∈ channels, ch.prod ≤ bound) →
      defineLayout channels bound = Except.ok channels) := by
  constructor
  · rintro ⟨ch, hch, hlt⟩
    simp only [defineLayout]
    rw [if_neg]
    intro hall
    exact absurd (hall ch hch) (by omega)
  · intro h
    simp only [defineLayout, if_pos h]

/-- Witness for C4: a channel of radix product `4096 * 4096 * 2 = 2^25`
is rejected at definition time, while the shading-rig layout (largest
channel product `6553600 < 2^24`) is accepted. -/
theorem c4_overflow_rejection_witness :
    defineLayout [[4096, 4096, 2]] transportBound =
        Except.error PackError.channelOverflow ∧
      defineLayout srLayout transportBound = Except.ok srLayout :=
  ⟨(c4_overflow_rejection [[4096, 4096, 2]] transportBound).1
      ⟨[4096, 4096, 2], by decide, by decide⟩,
   (c4_overflow_rejection srLayout transportBound).2 (by decide)⟩

/-- Every packed channel stays below any bound that dominates all the
layout's channel radix products. -/
theorem packAll_lt {layout codes : List (List ℕ)}
    (h : List.Forall₂ chValid layout codes) (B : ℕ)
    (hb : ∀ ch ∈ layout, ch.prod ≤ B) :
    ∀ n ∈ packAll layout codes, n < B := by
  induction h with
  | nil => intro n hn; simp [packAll] at hn
  | cons hcr htail ih =>
    rename_i rs cs layout' codes'
    intro n hn
    simp only [packAll, List.zipWith_cons_cons, List.mem_cons] at hn
    rcases hn with rfl | hn
    · exact lt_of_lt_of_le (packChannel_lt_prod hcr) (hb _ (List.mem_cons_self _ _))
    · exact ih (fun ch hch => hb ch (List.mem_cons_of_mem _ hch)) n hn

/-- C8: the transport representation is exactly 3 channels, and every
valid packed output consists of non-negative integer composites below
`2^24`, the exact-integer ceiling of a 32-bit float — so writing them
as floats corrupts no digit. -/
theorem c8_transport_channels (codes : List (List ℕ))
    (hvalid : List.Forall₂ chValid srLayout codes) :
    (packAll srLayout codes).length = 3 ∧
      ∀ n ∈ packAll srLayout codes, n < 2 ^ 24 := by
  refine ⟨?_, packAll_lt hvalid (2 ^ 24) (by decide)⟩
  have hlen := hvalid.length_eq
  simp only [packAll, List.length_zipWith]
  simp only [srLayout, List.length_cons, List.length_nil] at hlen ⊢
  omega

/-- Witness for C8 at concrete valid codes for the three channels. -/
theorem c8_transport_channels_witness :
    (packAll srLayout [[7, 4, 1], [255, 255], [255, 255, 99]]).length = 3 ∧
      ∀ n ∈ packAll srLayout [[7, 4, 1], [255, 255], [255, 255, 99]],
        n < 2 ^ 24 :=
  c8_transport_channels [[7, 4, 1], [255, 255], [255, 255, 99]]
    (by
      refine List.Forall₂.cons ?_ (List.Forall₂.cons ?_
        (List.Forall₂.cons ?_ List.Forall₂.nil)) <;>
        · refine List.Forall₂.cons (by decide) ?_
          repeat first
            | exact List.Forall₂.nil
            | refine List.Forall₂.cons (by decide) ?_)

/-- Clamping is idempotent on a non-degenerate range. -/
theorem clampQ_idem {lo hi : ℚ} (hlh : lo ≤ hi) (w : ℚ) :
    clampQ lo hi (clampQ lo hi w) = clampQ lo hi w := by
  unfold clampQ
  have e1 : min hi (max lo (min hi w)) = max lo (min hi w) :=
    min_eq_right (max_le hlh (min_le_left hi w))
  rw [e1, ← max_assoc, max_self]

/-- The quantization step of a non-degenerate continuous descriptor
with at least one bit is positive. -/
theorem stepQ_pos {d : ContDesc} (hlt : d.lo < d.hi) (hb : 1 ≤ d.bits) :
    0 < stepQ d := by
  unfold stepQ
  apply div_pos (by linarith)
  have h2 : (2 : ℚ) ≤ 2 ^ d.bits := by
    calc (2 : ℚ) = 2 ^ 1 := (pow_one 2).symm
    _ ≤ 2 ^ d.bits := pow_le_pow_right₀ one_le_two hb
  linarith

/-- C7: for every continuous descriptor and raw value inside the
declared range, dequantize-after-quantize lands within one quantization
step of the original (rounding to nearest even gives half a step);
quantize clamps out-of-range input instead of failing; enum descriptors
map ordinals inside the cardinality identically and exactly; booleans
round-trip exactly. -/
theorem c7_quantizer_round_trip (d : ContDesc) (hlt : d.lo < d.hi)
    (hb : 1 ≤ d.bits) (v : ℚ) (h1 : d.lo ≤ v) (h2 : v ≤ d.hi) :
    |dequantizeCont d (quantizeCont d v) - v| ≤ stepQ d ∧
    (∀ w : ℚ, quantizeCont d w = quantizeCont d (clampQ d.lo d.hi w)) ∧
    (∀ card o : ℕ, o < card →
      quantizeEnum card o = Except.ok o ∧ dequantizeEnum o = o) ∧
    (∀ b : Bool, dequantizeBool (quantizeBool b) = b) := by
  have hstep : 0 < stepQ d := stepQ_pos hlt hb
  refine ⟨?_, ?_, ?_, ?_⟩
  · have hclamp : clampQ d.lo d.hi v = v := by
      unfold clampQ
      rw [min_eq_right h2, max_eq_right h1]
    set t := (v - d.lo) / stepQ d with ht
    have hv : v - d.lo = t * stepQ d := by
      rw [ht]; field_simp
    have key : dequantizeCont d (quantizeCont d v) - v =
        stepQ d * ((round t : ℚ) - t) := by
      unfold dequantizeCont quantizeCont
      rw [hclamp, ← ht]
      have : v = d.lo + t * stepQ d := by linarith
      rw [this]; ring
    rw [key, abs_mul, abs_of_pos hstep]
    have hr : |(round t : ℚ) - t| ≤ 1 / 2 := by
      have h := abs_sub_round t
      rwa [abs_sub_comm] at h
    calc stepQ d * |(round t : ℚ) - t| ≤ stepQ d * (1 / 2) :=
          mul_le_mul_of_nonneg_left hr (le_of_lt hstep)
    _ ≤ stepQ d := by linarith
  · intro w
    unfold quantizeCont
    rw [clampQ_idem (le_of_lt hlt)]
  · intro card o ho
    refine ⟨?_, rfl⟩
    unfold quantizeEnum
    rw [if_pos ho]
  · intro b
    cases b <;> rfl

/-- Witness for C7 at the elongation descriptor of §8 (range `[0, 1]`,
8 levels) and the raw value `1/3`. -/
theorem c7_quantizer_round_trip_witness :
    |dequantizeCont ⟨0, 1, 3⟩ (quantizeCont ⟨0, 1, 3⟩ (1 / 3)) - 1 / 3| ≤
        stepQ ⟨0, 1, 3⟩ ∧
      (∀ w : ℚ,
        quantizeCont ⟨0, 1, 3⟩ w = quantizeCont ⟨0, 1, 3⟩ (clampQ 0 1 w)) ∧
      (∀ card o : ℕ, o < card →
        quantizeEnum card o = Except.ok o ∧ dequantizeEnum o = o) ∧
      (∀ b : Bool, dequantizeBool (quantizeBool b) = b) :=
  c7_quantizer_round_trip ⟨0, 1, 3⟩ (by norm_num) (by norm_num) (1 / 3)
    (by norm_num) (by norm_num)

/-- The squared orientation distance is non-negative. -/
theorem sqDist_nonneg (a b : Vec3) : 0 ≤ sqDist a b := by
  unfold sqDist
  positivity

/-- A one-sample set is returned unchanged by the interpolator: the
lone weight normalizes to 1 regardless of the query orientation. -/
theorem estimate_single (eps : ℚ) (heps : 0 < eps)
    (rotBlend : List (ℚ × Vec3) → Vec3)
    (hrb : ∀ r : Vec3, rotBlend [(1, r)] = r)
    (s : CorrelationItem) (q : Vec3) :
    estimate eps rotBlend [s] q =
      (s.empty_position, s.empty_scale, s.empty_rotation) := by
  have hpos : 0 < sqDist s.light_rotation q + eps := by
    have := sqDist_nonneg s.light_rotation q
    linarith
  have hne : (1 : ℚ) / (sqDist s.light_rotation q + eps) ≠ 0 :=
    one_div_ne_zero (ne_of_gt hpos)
  unfold estimate weightedSum
  simp only [List.map_cons, List.map_nil, List.sum_cons, List.sum_nil,
    add_zero, List.zip_cons_cons, List.zip_nil_left, List.foldr_cons,
    List.foldr_nil, div_self hne]
  rw [hrb]
  simp

/-- The concrete blend returns a unit-weight sample unchanged. -/
theorem rotBlendWeightedSum_single (r : Vec3) :
    rotBlendWeightedSum [(1, r)] = r := by
  simp [rotBlendWeightedSum, weightedSum]

/-- C5: for a single correlation sample and any query orientation, the
interpolator returns the sample's stored pose (position, scale,
rotation) unchanged — the lone sample's normalized weight is 1.  The
`rotBlend` hypothesis asks only that the blend return a sample carrying
the full unit weight unchanged, which every conforming rotation
average satisfies. -/
theorem c5_single_sample_identity (eps : ℚ) (heps : 0 < eps)
    (rotBlend : List (ℚ × Vec3) → Vec3)
    (hrb : ∀ r : Vec3, rotBlend [(1, r)] = r)
    (s : CorrelationItem) (q : Vec3) :
    estimate eps rotBlend [s] q =
      (s.empty_position, s.empty_scale, s.empty_rotation) :=
  estimate_single eps heps rotBlend hrb s q

/-- Witness for C5: a concrete sample queried at a different
orientation still comes back exactly. -/
theorem c5_single_sample_identity_witness :
    estimate (1 / 1000) rotBlendWeightedSum
        [⟨"c", ⟨0, 0, 0⟩, ⟨1, 2, 3⟩, ⟨4, 5, 6⟩, ⟨7, 8, 9⟩⟩] ⟨0, 45, 0⟩ =
      (⟨1, 2, 3⟩, ⟨7, 8, 9⟩, ⟨4, 5, 6⟩) :=
  c5_single_sample_identity (1 / 1000) (by norm_num) rotBlendWeightedSum
    rotBlendWeightedSum_single
    ⟨"c", ⟨0, 0, 0⟩, ⟨1, 2, 3⟩, ⟨4, 5, 6⟩, ⟨7, 8, 9⟩⟩ ⟨0, 45, 0⟩

/-- C6: the interpolator's distance is the Euclidean norm of the three
per-axis shortest-arc deltas, so two orientations on either side of the
wrap boundary — one `α` past zero, the other `β` short of a full turn —
are `α + β` apart (adjacent), strictly closer than the raw Euler
subtraction `α - (360 - β)` would make them whenever they are not
exactly half a turn apart. -/
theorem c6_wrap_adjacent (α β : ℚ) (hα : 0 ≤ α) (hβ : 0 ≤ β)
    (hs : α + β ≤ 180) :
    sqDist ⟨0, 0, α⟩ ⟨0, 0, 360 - β⟩ = (α + β) ^ 2 ∧
      (α + β < 180 →
        sqDist ⟨0, 0, α⟩ ⟨0, 0, 360 - β⟩ < (α - (360 - β)) ^ 2) := by
  have hz : axisDelta 0 0 = 0 := by
    norm_num [axisDelta, wrapAngle]
  have hfloor : ⌊(α + β - 360) / 360⌋ = (-1 : ℤ) := by
    rw [Int.floor_eq_iff]
    constructor
    · rw [le_div_iff₀ (by norm_num : (0 : ℚ) < 360)]
      push_cast
      linarith
    · rw [div_lt_iff₀ (by norm_num : (0 : ℚ) < 360)]
      push_cast
      linarith
  have hmain : axisDelta α (360 - β) = α + β := by
    unfold axisDelta wrapAngle
    have harg : α - (360 - β) = α + β - 360 := by ring
    rw [harg, hfloor]
    have h2 : α + β - 360 - 360 * (((-1 : ℤ) : ℚ)) = α + β := by
      push_cast
      ring
    rw [h2]
    exact min_eq_left (by linarith)
  have hsq : sqDist ⟨0, 0, α⟩ ⟨0, 0, 360 - β⟩ = (α + β) ^ 2 := by
    show (axisDelta 0 0) ^ 2 + (axisDelta 0 0) ^ 2 +
        (axisDelta α (360 - β)) ^ 2 = (α + β) ^ 2
    rw [hz, hmain]
    ring
  refine ⟨hsq, fun hlt => ?_⟩
  rw [hsq]
  nlinarith

/-- Witness for C6: orientations 1° past zero and 2° short of a full
turn are 3° apart for the interpolator, not 357°. -/
theorem c6_wrap_adjacent_witness :
    sqDist ⟨0, 0, 1⟩ ⟨0, 0, 360 - 2⟩ = (1 + 2) ^ 2 ∧
      sqDist ⟨0, 0, 1⟩ ⟨0, 0, 360 - 2⟩ < ((1 : ℚ) - (360 - 2)) ^ 2 :=
  ⟨(c6_wrap_adjacent 1 2 (by norm_num) (by norm_num) (by norm_num)).1,
   (c6_wrap_adjacent 1 2 (by norm_num) (by norm_num) (by norm_num)).2
     (by norm_num)⟩

/-- Closed form of the interpolated position for the §8 three-sample
scenario (samples at orientations `(0,0,0)`, `(0,90,0)`, `(0,180,0)`,
query `(0,90,0)`): the second sample's position plus an error term
proportional to `eps`.  The outer samples are `90` degrees from the
query (squared distance `8100`), the middle one at distance zero, so
the unnormalized weights are `1/(8100+eps)`, `1/eps`, `1/(8100+eps)`
and the blend simplifies to
`p2 + (eps/(8100+3*eps)) * (p1 + p3 - 2*p2)`. -/
theorem estimate3_closed_form (eps : ℚ) (heps : 0 < eps)
    (rb : List (ℚ × Vec3) → Vec3) (n1 n2 n3 : String)
    (p1 p2 p3 r1 r2 r3 c1 c2 c3 : Vec3) :
    (estimate eps rb
        [⟨n1, ⟨0, 0, 0⟩, p1, r1, c1⟩,
         ⟨n2, ⟨0, 90, 0⟩, p2, r2, c2⟩,
         ⟨n3, ⟨0, 180, 0⟩, p3, r3, c3⟩] ⟨0, 90, 0⟩).1 =
      p2 + (eps / (8100 + 3 * eps)) • (p1 + p3 - (2 : ℚ) • p2) := by
  have he : eps ≠ 0 := ne_of_gt heps
  have h8 : (8100 : ℚ) + eps ≠ 0 := ne_of_gt (by linarith)
  have h83 : (8100 : ℚ) + 3 * eps ≠ 0 := ne_of_gt (by linarith)
  have d1 : sqDist ⟨0, 0, 0⟩ ⟨0, 90, 0⟩ = 8100 := by
    norm_num [sqDist, axisDelta, wrapAngle, min_def]
  have d2 : sqDist ⟨0, 90, 0⟩ ⟨0, 90, 0⟩ = 0 := by
    norm_num [sqDist, axisDelta, wrapAngle, min_def]
  have d3 : sqDist ⟨0, 180, 0⟩ ⟨0, 90, 0⟩ = 8100 := by
    norm_num [sqDist, axisDelta, wrapAngle, min_def]
  unfold estimate weightedSum
  simp only [List.map_cons, List.map_nil, d1, d2, d3, zero_add,
    List.sum_cons, List.sum_nil, add_zero, List.zip_cons_cons,
    List.zip_nil_left, List.foldr_cons, List.foldr_nil]
  ext <;>
    · simp only [Vec3.add_x, Vec3.add_y, Vec3.add_z, Vec3.smul_x,
        Vec3.smul_y, Vec3.smul_z, Vec3.zero_x, Vec3.zero_y, Vec3.zero_z,
        Vec3.sub_x, Vec3.sub_y, Vec3.sub_z]
      field_simp
      ring

/-- C3 counterexample: with the spec's weight `1/(distance^p + eps)`
and `eps > 0` (here `eps = 1/1000`), querying the three-sample set at
the second sample's exact orientation does NOT return the second
sample's stored position exactly — the other two samples keep nonzero
weight. -/
theorem c3_counterexample :
    (estimate (1 / 1000) rotBlendWeightedSum
        [⟨"a", ⟨0, 0, 0⟩, ⟨1, 0, 0⟩, 0, 0⟩,
         ⟨"b", ⟨0, 90, 0⟩, ⟨0, 0, 0⟩, 0, 0⟩,
         ⟨"c", ⟨0, 180, 0⟩, ⟨0, 1, 0⟩, 0, 0⟩] ⟨0, 90, 0⟩).1 ≠
      ⟨0, 0, 0⟩ := by
  rw [estimate3_closed_form (1 / 1000) (by norm_num) rotBlendWeightedSum
    "a" "b" "c" ⟨1, 0, 0⟩ ⟨0, 0, 0⟩ ⟨0, 1, 0⟩ 0 0 0 0 0 0]
  intro h
  have hx := congrArg Vec3.x h
  simp only [Vec3.add_x, Vec3.smul_x, Vec3.sub_x, Vec3.zero_x] at hx
  norm_num at hx

/-- C3 (amended): querying the §8 three-sample scenario at the second
sample's orientation returns the second sample's position only up to an
`eps`-proportional correction: the result is exactly
`p2 + (eps/(8100+3*eps)) * (p1 + p3 - 2*p2)`, whose deviation from `p2`
vanishes as `eps` tends to zero (and is zero exactly when the outer
positions average to `p2`); the zero-distance sample dominates but,
with `eps > 0`, does not win outright. -/
theorem c3_query_at_sample (eps : ℚ) (heps : 0 < eps)
    (rb : List (ℚ × Vec3) → Vec3) (n1 n2 n3 : String)
    (p1 p2 p3 r1 r2 r3 c1 c2 c3 : Vec3) :
    (estimate eps rb
        [⟨n1, ⟨0, 0, 0⟩, p1, r1, c1⟩,
         ⟨n2, ⟨0, 90, 0⟩, p2, r2, c2⟩,
         ⟨n3, ⟨0, 180, 0⟩, p3, r3, c3⟩] ⟨0, 90, 0⟩).1 =
      p2 + (eps / (8100 + 3 * eps)) • (p1 + p3 - (2 : ℚ) • p2) :=
  estimate3_closed_form eps heps rb n1 n2 n3 p1 p2 p3 r1 r2 r3 c1 c2 c3

/-- Witness for the amended C3 at `eps = 1/1000` and concrete distinct
positions. -/
theorem c3_query_at_sample_witness :
    (estimate (1 / 1000) rotBlendWeightedSum
        [⟨"a", ⟨0, 0, 0⟩, ⟨1, 0, 0⟩, 0, 0⟩,
         ⟨"b", ⟨0, 90, 0⟩, ⟨0, 2, 0⟩, 0, 0⟩,
         ⟨"c", ⟨0, 180, 0⟩, ⟨0, 0, 3⟩, 0, 0⟩] ⟨0, 90, 0⟩).1 =
      ⟨0, 2, 0⟩ + (((1 : ℚ) / 1000) / (8100 + 3 * (1 / 1000))) •
        (⟨1, 0, 0⟩ + ⟨0, 0, 3⟩ - (2 : ℚ) • ⟨0, 2, 0⟩) :=
  c3_query_at_sample (1 / 1000) (by norm_num) rotBlendWeightedSum
    "a" "b" "c" ⟨1, 0, 0⟩ ⟨0, 2, 0⟩ ⟨0, 0, 3⟩ 0 0 0 0 0 0

/-- C9: when the Add Correlation operator runs on a rig with both a
light and an empty object assigned, it finishes, appends exactly one
sample recording the light's current rotation and the empty's current
location, rotation and scale at the end of the correlation list, sets
`correlations_index` to the new last index (the old length), and leaves
every previously stored sample unchanged. -/
theorem c9_correlation_add (charName : String) (rig : RigItem)
    (l : Light) (e : ObjState)
    (hl : rig.light_object = some l) (he : rig.empty_object = some e) :
    correlationAddExecute charName rig =
      ({ rig with
          correlations := rig.correlations ++
            [⟨correlationName charName (rig.correlations.length + 1),
              l.rotation_euler, e.location, e.rotation_euler, e.scale⟩]
          correlations_index := rig.correlations.length },
        OpResult.finished) ∧
      ∀ i : ℕ, i < rig.correlations.length →
        (correlationAddExecute charName rig).1.correlations[i]? =
          rig.correlations[i]? := by
  have hmain : correlationAddExecute charName rig =
      ({ rig with
          correlations := rig.correlations ++
            [⟨correlationName charName (rig.correlations.length + 1),
              l.rotation_euler, e.location, e.rotation_euler, e.scale⟩]
          correlations_index := rig.correlations.length },
        OpResult.finished) := by
    simp only [correlationAddExecute, hl, he]
  refine ⟨hmain, fun i hi => ?_⟩
  rw [hmain]
  exact List.getElem?_append_left hi

/-- Witness for C9 on a rig with one stored correlation. -/
theorem c9_correlation_add_witness :
    correlationAddExecute "ch"
        ⟨some ⟨"L", ⟨1, 2, 3⟩⟩, some ⟨⟨4, 5, 6⟩, ⟨7, 8, 9⟩, ⟨1, 1, 1⟩⟩,
          [⟨"old", 0, 0, 0, 0⟩], 0⟩ =
      (⟨some ⟨"L", ⟨1, 2, 3⟩⟩, some ⟨⟨4, 5, 6⟩, ⟨7, 8, 9⟩, ⟨1, 1, 1⟩⟩,
        [⟨"old", 0, 0, 0, 0⟩,
         ⟨correlationName "ch" 2, ⟨1, 2, 3⟩, ⟨4, 5, 6⟩, ⟨7, 8, 9⟩,
           ⟨1, 1, 1⟩⟩], 1⟩,
       OpResult.finished) ∧
      ∀ i : ℕ, i < 1 →
        (correlationAddExecute "ch"
            ⟨some ⟨"L", ⟨1, 2, 3⟩⟩, some ⟨⟨4, 5, 6⟩, ⟨7, 8, 9⟩, ⟨1, 1, 1⟩⟩,
              [⟨"old", 0, 0, 0, 0⟩], 0⟩).1.correlations[i]? =
          ([⟨"old", 0, 0, 0, 0⟩] : List CorrelationItem)[i]? :=
  c9_correlation_add "ch"
    ⟨some ⟨"L", ⟨1, 2, 3⟩⟩, some ⟨⟨4, 5, 6⟩, ⟨7, 8, 9⟩, ⟨1, 1, 1⟩⟩,
      [⟨"old", 0, 0, 0, 0⟩], 0⟩
    ⟨"L", ⟨1, 2, 3⟩⟩ ⟨⟨4, 5, 6⟩, ⟨7, 8, 9⟩, ⟨1, 1, 1⟩⟩ rfl rfl

/-- C10: the Remove Correlation operator keeps `correlations_index`
valid — with a stored index at or past the list length it cancels and
changes nothing; otherwise it finishes, removes exactly the sample at
the index, sets the index to `index - 1` when the index was positive
and to `0` otherwise, the new length is one less, the new index is at
most `max 0 (new length - 1)`, and whenever samples remain the index
addresses one of them. -/
theorem c10_correlation_remove (rig : RigItem) :
    (rig.correlations.length ≤ rig.correlations_index →
      correlationRemoveExecute rig = (rig, OpResult.cancelled)) ∧
    (rig.correlations_index < rig.correlations.length →
      correlationRemoveExecute rig =
        ({ rig with
            correlations := rig.correlations.eraseIdx rig.correlations_index
            correlations_index :=
              if 0 < rig.correlations_index then rig.correlations_index - 1
              else 0 },
          OpResult.finished) ∧
      (correlationRemoveExecute rig).1.correlations.length =
        rig.correlations.length - 1 ∧
      (correlationRemoveExecute rig).1.correlations_index ≤
        max 0 ((correlationRemoveExecute rig).1.correlations.length - 1) ∧
      (0 < (correlationRemoveExecute rig).1.correlations.length →
        (correlationRemoveExecute rig).1.correlations_index <
          (correlationRemoveExecute rig).1.correlations.length)) := by
  constructor
  · intro h
    simp only [correlationRemoveExecute, if_pos h]
  · intro h
    have hnot : ¬ rig.correlations.length ≤ rig.correlations_index :=
      not_le.mpr h
    have hmain : correlationRemoveExecute rig =
        ({ rig with
            correlations := rig.correlations.eraseIdx rig.correlations_index
            correlations_index :=
              if 0 < rig.correlations_index then rig.correlations_index - 1
              else 0 },
          OpResult.finished) := by
      simp only [correlationRemoveExecute, if_neg hnot]
    rw [hmain]
    refine ⟨rfl, ?_, ?_, ?_⟩
    · simp only [List.length_eraseIdx, if_pos h]
    · simp only [List.length_eraseIdx, if_pos h]
      split_ifs <;> omega
    · simp only [List.length_eraseIdx, if_pos h]
      intro hpos
      split_ifs <;> omega

/-- Witness for C10: removing the middle sample of a three-sample list
at index 1 succeeds and re-selects index 0; an index past the end of a
one-sample list cancels with nothing changed. -/
theorem c10_correlation_remove_witness :
    correlationRemoveExecute
        ⟨none, none,
          [⟨"a", 0, 0, 0, 0⟩, ⟨"b", 0, 0, 0, 0⟩, ⟨"c", 0, 0, 0, 0⟩], 1⟩ =
      (⟨none, none,
        ([⟨"a", 0, 0, 0, 0⟩, ⟨"b", 0, 0, 0, 0⟩, ⟨"c", 0, 0, 0, 0⟩] :
          List CorrelationItem).eraseIdx 1,
        if 0 < (1 : ℕ) then 1 - 1 else 0⟩,
       OpResult.finished) ∧
    correlationRemoveExecute ⟨none, none, [⟨"a", 0, 0, 0, 0⟩], 5⟩ =
      (⟨none, none, [⟨"a", 0, 0, 0, 0⟩], 5⟩, OpResult.cancelled) :=
  ⟨((c10_correlation_remove
      ⟨none, none,
        [⟨"a", 0, 0, 0, 0⟩, ⟨"b", 0, 0, 0, 0⟩, ⟨"c", 0, 0, 0, 0⟩], 1⟩).2
        (by decide)).1,
   (c10_correlation_remove ⟨none, none, [⟨"a", 0, 0, 0, 0⟩], 5⟩).1
     (by decide)⟩

/-- C2 counterexample: the skip cache is keyed by light name, not by
rig.  Two rigs driven by the same light `"L"`: processing the first
stores the light's rotation in the map, so the second rig is skipped on
the very first handler pass and its empty keeps its stale pose, while
the handler without the skip recomputes it from the second rig's own
correlation (stored position `(1,0,0)`). -/
theorem c2_counterexample :
    (runHandler (1 / 1000) rotBlendWeightedSum []
        [⟨some ⟨"L", ⟨0, 0, 0⟩⟩, some ⟨⟨0, 0, 0⟩, ⟨0, 0, 0⟩, ⟨1, 1, 1⟩⟩,
           [⟨"sa", ⟨0, 0, 0⟩, ⟨5, 0, 0⟩, ⟨0, 0, 0⟩, ⟨1, 1, 1⟩⟩], 0⟩,
         ⟨some ⟨"L", ⟨0, 0, 0⟩⟩, some ⟨⟨0, 0, 0⟩, ⟨0, 0, 0⟩, ⟨1, 1, 1⟩⟩,
           [⟨"sb", ⟨0, 0, 0⟩, ⟨1, 0, 0⟩, ⟨0, 0, 0⟩, ⟨1, 1, 1⟩⟩], 0⟩]).2 ≠
      runHandlerNoSkip (1 / 1000) rotBlendWeightedSum
        [⟨some ⟨"L", ⟨0, 0, 0⟩⟩, some ⟨⟨0, 0, 0⟩, ⟨0, 0, 0⟩, ⟨1, 1, 1⟩⟩,
           [⟨"sa", ⟨0, 0, 0⟩, ⟨5, 0, 0⟩, ⟨0, 0, 0⟩, ⟨1, 1, 1⟩⟩], 0⟩,
         ⟨some ⟨"L", ⟨0, 0, 0⟩⟩, some ⟨⟨0, 0, 0⟩, ⟨0, 0, 0⟩, ⟨1, 1, 1⟩⟩,
           [⟨"sb", ⟨0, 0, 0⟩, ⟨1, 0, 0⟩, ⟨0, 0, 0⟩, ⟨1, 1, 1⟩⟩], 0⟩] := by
  simp only [one_div]
  have hestA : estimate ((1000 : ℚ)⁻¹) rotBlendWeightedSum
      [⟨"sa", ⟨0, 0, 0⟩, ⟨5, 0, 0⟩, ⟨0, 0, 0⟩, ⟨1, 1, 1⟩⟩] ⟨0, 0, 0⟩ =
      (⟨5, 0, 0⟩, ⟨1, 1, 1⟩, ⟨0, 0, 0⟩) :=
    estimate_single ((1000 : ℚ)⁻¹) (by norm_num) rotBlendWeightedSum
      rotBlendWeightedSum_single _ _
  have hestB : estimate ((1000 : ℚ)⁻¹) rotBlendWeightedSum
      [⟨"sb", ⟨0, 0, 0⟩, ⟨1, 0, 0⟩, ⟨0, 0, 0⟩, ⟨1, 1, 1⟩⟩] ⟨0, 0, 0⟩ =
      (⟨1, 0, 0⟩, ⟨1, 1, 1⟩, ⟨0, 0, 0⟩) :=
    estimate_single ((1000 : ℚ)⁻¹) (by norm_num) rotBlendWeightedSum
      rotBlendWeightedSum_single _ _
  have hsA : handlerStep ((1000 : ℚ)⁻¹) rotBlendWeightedSum []
      ⟨some ⟨"L", ⟨0, 0, 0⟩⟩, some ⟨⟨0, 0, 0⟩, ⟨0, 0, 0⟩, ⟨1, 1, 1⟩⟩,
        [⟨"sa", ⟨0, 0, 0⟩, ⟨5, 0, 0⟩, ⟨0, 0, 0⟩, ⟨1, 1, 1⟩⟩], 0⟩ =
      ([("L", ⟨0, 0, 0⟩)],
       ⟨some ⟨"L", ⟨0, 0, 0⟩⟩, some ⟨⟨5, 0, 0⟩, ⟨0, 0, 0⟩, ⟨1, 1, 1⟩⟩,
        [⟨"sa", ⟨0, 0, 0⟩, ⟨5, 0, 0⟩, ⟨0, 0, 0⟩, ⟨1, 1, 1⟩⟩], 0⟩) := by
    simp [handlerStep, lookupRot, hestA]
  have hsB : handlerStep ((1000 : ℚ)⁻¹) rotBlendWeightedSum
      [("L", ⟨0, 0, 0⟩)]
      ⟨some ⟨"L", ⟨0, 0, 0⟩⟩, some ⟨⟨0, 0, 0⟩, ⟨0, 0, 0⟩, ⟨1, 1, 1⟩⟩,
        [⟨"sb", ⟨0, 0, 0⟩, ⟨1, 0, 0⟩, ⟨0, 0, 0⟩, ⟨1, 1, 1⟩⟩], 0⟩ =
      ([("L", ⟨0, 0, 0⟩)],
       ⟨some ⟨"L", ⟨0, 0, 0⟩⟩, some ⟨⟨0, 0, 0⟩, ⟨0, 0, 0⟩, ⟨1, 1, 1⟩⟩,
        [⟨"sb", ⟨0, 0, 0⟩, ⟨1, 0, 0⟩, ⟨0, 0, 0⟩, ⟨1, 1, 1⟩⟩], 0⟩) := by
    norm_num [handlerStep, lookupRot, sqNorm, skipEpsSq]
  have hnsA : stepNoSkip ((1000 : ℚ)⁻¹) rotBlendWeightedSum
      ⟨some ⟨"L", ⟨0, 0, 0⟩⟩, some ⟨⟨0, 0, 0⟩, ⟨0, 0, 0⟩, ⟨1, 1, 1⟩⟩,
        [⟨"sa", ⟨0, 0, 0⟩, ⟨5, 0, 0⟩, ⟨0, 0, 0⟩, ⟨1, 1, 1⟩⟩], 0⟩ =
      ⟨some ⟨"L", ⟨0, 0, 0⟩⟩, some ⟨⟨5, 0, 0⟩, ⟨0, 0, 0⟩, ⟨1, 1, 1⟩⟩,
        [⟨"sa", ⟨0, 0, 0⟩, ⟨5, 0, 0⟩, ⟨0, 0, 0⟩, ⟨1, 1, 1⟩⟩], 0⟩ := by
    simp [stepNoSkip, hestA]
  have hnsB : stepNoSkip ((1000 : ℚ)⁻¹) rotBlendWeightedSum
      ⟨some ⟨"L", ⟨0, 0, 0⟩⟩, some ⟨⟨0, 0, 0⟩, ⟨0, 0, 0⟩, ⟨1, 1, 1⟩⟩,
        [⟨"sb", ⟨0, 0, 0⟩, ⟨1, 0, 0⟩, ⟨0, 0, 0⟩, ⟨1, 1, 1⟩⟩], 0⟩ =
      ⟨some ⟨"L", ⟨0, 0, 0⟩⟩, some ⟨⟨1, 0, 0⟩, ⟨0, 0, 0⟩, ⟨1, 1, 1⟩⟩,
        [⟨"sb", ⟨0, 0, 0⟩, ⟨1, 0, 0⟩, ⟨0, 0, 0⟩, ⟨1, 1, 1⟩⟩], 0⟩ := by
    simp [stepNoSkip, hestB]
  simp only [runHandler, runHandlerNoSkip, List.map_cons, List.map_nil,
    hsA, hsB, hnsA, hnsB]
  intro h
  simp only [List.cons.injEq] at h
  have h2 := h.2.1
  simp only [RigItem.mk.injEq, Option.some.injEq, ObjState.mk.injEq,
    Vec3.mk.injEq] at h2
  norm_num at h2

/-- C2 (amended): the change-detection skip is keyed by the light
object's name in a module-global map, not by rig, so a rig can be
skipped because of an entry written while processing a DIFFERENT rig
sharing the same light, or because its light moved by a nonzero
sub-epsilon amount — in those cases the skipped rig's empty retains a
stale pose.  When no two rigs share a light name and no rig's light
name already has a stored previous rotation, a single handler pass
updates every rig exactly as the handler without the skip would:
each rig with an empty, a light and a non-empty correlation list gets
the interpolated pose for its current light rotation. -/
theorem c2_skip_refines_noskip (eps : ℚ)
    (rb : List (ℚ × Vec3) → Vec3) (m : List (String × Vec3))
    (rigs : List RigItem)
    (hnd : (rigs.filterMap lightKey).Nodup)
    (hm : ∀ k ∈ rigs.filterMap lightKey, lookupRot k m = none) :
    (runHandler eps rb m rigs).2 = runHandlerNoSkip eps rb rigs := by
  induction rigs generalizing m with
  | nil => rfl
  | cons r rs ih =>
    rcases hL : r.light_object with _ | l
    · have hkeys : (r :: rs).filterMap lightKey = rs.filterMap lightKey := by
        simp [List.filterMap_cons, lightKey, hL]
      rw [hkeys] at hnd hm
      have hstep : handlerStep eps rb m r = (m, r) := by
        rcases hE : r.empty_object with _ | e <;> simp [handlerStep, hE, hL]
      have hns : stepNoSkip eps rb r = r := by
        rcases hE : r.empty_object with _ | e <;> simp [stepNoSkip, hE, hL]
      simp only [runHandler, runHandlerNoSkip, List.map_cons, hstep, hns]
      exact congrArg (r :: ·) (ih m hnd hm)
    · have hkeys : (r :: rs).filterMap lightKey =
          l.name_full :: rs.filterMap lightKey := by
        simp [List.filterMap_cons, lightKey, hL]
      rw [hkeys] at hnd hm
      obtain ⟨hnotin, hnd'⟩ := List.nodup_cons.mp hnd
      have hm0 : lookupRot l.name_full m = none :=
        hm _ (List.mem_cons_self _ _)
      have hm' : ∀ k ∈ rs.filterMap lightKey, lookupRot k m = none :=
        fun k hk => hm k (List.mem_cons_of_mem _ hk)
      rcases hE : r.empty_object with _ | e
      · have hstep : handlerStep eps rb m r = (m, r) := by
          simp [handlerStep, hE]
        have hns : stepNoSkip eps rb r = r := by
          simp [stepNoSkip, hE]
        simp only [runHandler, runHandlerNoSkip, List.map_cons, hstep, hns]
        exact congrArg (r :: ·) (ih m hnd' hm')
      · by_cases hc : r.correlations.length = 0
        · have hstep : handlerStep eps rb m r = (m, r) := by
            simp [handlerStep, hE, hL, hc]
          have hns : stepNoSkip eps rb r = r := by
            simp [stepNoSkip, hE, hL, hc]
          simp only [runHandler, runHandlerNoSkip, List.map_cons, hstep, hns]
          exact congrArg (r :: ·) (ih m hnd' hm')
        · have hstep : handlerStep eps rb m r =
              ((l.name_full, l.rotation_euler) :: m,
               { r with
                  empty_object :=
                    some ⟨(estimate eps rb r.correlations l.rotation_euler).1,
                      (estimate eps rb r.correlations l.rotation_euler).2.2,
                      (estimate eps rb r.correlations l.rotation_euler).2.1⟩ }) := by
            simp [handlerStep, hE, hL, hc, hm0]
          have hns : stepNoSkip eps rb r =
              { r with
                  empty_object :=
                    some ⟨(estimate eps rb r.correlations l.rotation_euler).1,
                      (estimate eps rb r.correlations l.rotation_euler).2.2,
                      (estimate eps rb r.correlations l.rotation_euler).2.1⟩ } := by
            simp [stepNoSkip, hE, hL, hc]
          have hm'' : ∀ k ∈ rs.filterMap lightKey,
              lookupRot k ((l.name_full, l.rotation_euler) :: m) = none := by
            intro k hk
            have hne : l.name_full ≠ k := fun hh => hnotin (hh ▸ hk)
            simp only [lookupRot, if_neg hne]
            exact hm' k hk
          simp only [runHandler, runHandlerNoSkip, List.map_cons, hstep, hns]
          exact congrArg (_ :: ·)
            (ih ((l.name_full, l.rotation_euler) :: m) hnd' hm'')

/-- Witness for the amended C2: one rig, fresh map — the handler with
the skip and the handler without it agree. -/
theorem c2_skip_refines_noskip_witness :
    (runHandler (1 / 1000) rotBlendWeightedSum []
        [⟨some ⟨"L", ⟨0, 0, 0⟩⟩, some ⟨⟨0, 0, 0⟩, ⟨0, 0, 0⟩, ⟨1, 1, 1⟩⟩,
           [⟨"sa", ⟨0, 0, 0⟩, ⟨5, 0, 0⟩, ⟨0, 0, 0⟩, ⟨1, 1, 1⟩⟩], 0⟩]).2 =
      runHandlerNoSkip (1 / 1000) rotBlendWeightedSum
        [⟨some ⟨"L", ⟨0, 0, 0⟩⟩, some ⟨⟨0, 0, 0⟩, ⟨0, 0, 0⟩, ⟨1, 1, 1⟩⟩,
           [⟨"sa", ⟨0, 0, 0⟩, ⟨5, 0, 0⟩, ⟨0, 0, 0⟩, ⟨1, 1, 1⟩⟩], 0⟩] :=
  c2_skip_refines_noskip (1 / 1000) rotBlendWeightedSum []
    [⟨some ⟨"L", ⟨0, 0, 0⟩⟩, some ⟨⟨0, 0, 0⟩, ⟨0, 0, 0⟩, ⟨1, 1, 1⟩⟩,
       [⟨"sa", ⟨0, 0, 0⟩, ⟨5, 0, 0⟩, ⟨0, 0, 0⟩, ⟨1, 1, 1⟩⟩], 0⟩]
    (by simp [lightKey]) (fun k _ => rfl)
